import Mathlib

/-!
Verification model of `akitabox/passport-windowsauth`
(`src/lib/decodeSearchEntry.js`, `src/lib/LdapValidator.js`).

Strings are modelled as `List Char`, JavaScript byte buffers as `List Nat`
(each entry a byte value), and fallible JavaScript code (code that can throw
a `TypeError`/`ReferenceError`) as `Option`-returning functions where `none`
marks the throw.
-/

/-- The character `{` (written by code point to keep it out of string/char
literals). -/
def braceL : Char := Char.ofNat 123

/-- The character `}` (written by code point). -/
def braceR : Char := Char.ofNat 125

/-- The character backtick, used by the `$`-escape `$`+backtick of
JavaScript `String.prototype.replace`. -/
def btick : Char := Char.ofNat 96

/-- The character apostrophe, used by the `$`-escape `$'` of JavaScript
`String.prototype.replace`. -/
def apos : Char := Char.ofNat 39

/-- Literal-pattern prefix test: does `pat` occur at the head of `s`?
Models the regex engine's match attempt at one position for the literal
patterns the repository uses (`/\{i\}/g`, `/\{0\}/ig`; neither pattern
contains a cased character, so the `i` flag is inert). -/
def isPre : List Char → List Char → Bool
  | [], _ => true
  | p :: ps, s =>
    match s with
    | [] => false
    | x :: xs => p == x && isPre ps xs

/-- Left-to-right global scan of JavaScript `String.prototype.replace` with a
global regex whose pattern is the literal `pat`: at each position, if `pat`
matches, emit `f pos` (the replacement computed for the match at `pos`) and
resume after the match (the replacement is not rescanned); otherwise keep the
character. The first argument counts characters still to swallow from the
current match, so the recursion is structural in the subject list. -/
def scanAux (pat : List Char) (f : Nat → List Char) : Nat → Nat → List Char → List Char
  | _, _, [] => []
  | 0, pos, c :: rest =>
    if 0 < pat.length ∧ isPre pat (c :: rest) = true then
      f pos ++ scanAux pat f (pat.length - 1) (pos + 1) rest
    else
      c :: scanAux pat f 0 (pos + 1) rest
  | skip + 1, pos, _ :: rest => scanAux pat f skip (pos + 1) rest

/-- The replace scan started outside of any match, at position `pos`. -/
def scanRepl (pat : List Char) (f : Nat → List Char) (pos : Nat) (s : List Char) : List Char :=
  scanAux pat f 0 pos s

/-- `GetSubstitution` of the ECMAScript `String.prototype.replace` spec,
specialised to a regex with no capture groups: in the replacement string,
`$$` yields `$`, `$&` yields the matched text, `$`+backtick yields the
portion of the subject before the match, `$'` yields the portion after the
match, and every other `$`-sequence (including `$1`..`$9`, as there are no
captures) is kept literally. -/
def getSubstitution (matched before after : List Char) : List Char → List Char
  | [] => []
  | c :: rest =>
    if c = '$' then
      match rest with
      | [] => ['$']
      | d :: rest2 =>
        if d = '$' then '$' :: getSubstitution matched before after rest2
        else if d = '&' then matched ++ getSubstitution matched before after rest2
        else if d = btick then before ++ getSubstitution matched before after rest2
        else if d = apos then after ++ getSubstitution matched before after rest2
        else '$' :: d :: getSubstitution matched before after rest2
    else c :: getSubstitution matched before after rest

/-- JavaScript `s.replace(re, repl)` for a global regex `re` with literal
pattern `pat` and replacement string `repl` (with `$`-escape processing,
where before/after portions refer to the original subject `s`). -/
def jsReplace (pat repl s : List Char) : List Char :=
  scanRepl pat
    (fun pos => getSubstitution pat (List.take pos s) (List.drop (pos + pat.length) s) repl)
    0 s

/-- Plain literal replacement (no `$`-processing): what `jsReplace` computes
whenever the replacement string contains no `$`. -/
def replaceLit (pat repl s : List Char) : List Char :=
  scanRepl pat (fun _ => repl) 0 s

/-- The sixteen lowercase hex digit characters, as indexed by JavaScript
`Number.prototype.toString(16)`. -/
def hexChars : List Char := "0123456789abcdef".toList

/-- Digit character for one hex digit value. -/
def hexDigit (n : Nat) : Char := List.getD hexChars n '0'

/-- JavaScript `n.toString(16)` for a non-negative integer `n`: lowercase
hexadecimal digits, no padding. -/
def toHexString (n : Nat) : List Char :=
  if n < 16 then [hexDigit n]
  else toHexString (n / 16) ++ [hexDigit (n % 16)]
termination_by n
decreasing_by
  exact Nat.div_lt_self (by omega) (by omega)

/-- The per-byte rendering of `formatGuid` (`decodeSearchEntry.js` lines
5-7): `data[i].toString(16)`, left-padded with `0` when `data[i] < 16`. -/
def byteHex (n : Nat) : List Char :=
  if 16 ≤ n then toHexString n else '0' :: toHexString n

/-- The GUID format template of `formatGuid` (`decodeSearchEntry.js` line 2). -/
def guidFormat : List Char :=
  "{3}{2}{1}{0}-{5}{4}-{7}{6}-{8}{9}-{10}{11}{12}{13}{14}{15}".toList

/-- The pattern of the regex `new RegExp('\\{' + i + '\\}', 'g')` built in the
loop of `formatGuid`: the literal text `{i}` with `i` rendered in decimal. -/
def patOf (i : Nat) : List Char := braceL :: (toString i).toList ++ [braceR]

/-- `formatGuid` (`decodeSearchEntry.js` lines 1-10): starting from the
template, for `i = 0, 1, ..., data.length - 1` globally replace `{i}` by the
two-digit lowercase hex rendering of byte `i`. -/
def formatGuid (data : List Nat) : List Char :=
  (List.range data.length).foldl
    (fun fmt i => jsReplace (patOf i) (byteHex (data.getD i 0)) fmt) guidFormat

/-- A token of the GUID format template: a literal character or the `i`-th
positional hole `{i}`. Used only to reason about `formatGuid`. -/
inductive Tok
  | lit : Char → Tok
  | hole : Nat → Tok

/-- The token decomposition of `guidFormat`. -/
def guidToks : List Tok :=
  [Tok.hole 3, Tok.hole 2, Tok.hole 1, Tok.hole 0, Tok.lit '-',
   Tok.hole 5, Tok.hole 4, Tok.lit '-',
   Tok.hole 7, Tok.hole 6, Tok.lit '-',
   Tok.hole 8, Tok.hole 9, Tok.lit '-',
   Tok.hole 10, Tok.hole 11, Tok.hole 12, Tok.hole 13, Tok.hole 14, Tok.hole 15]

/-- Render a token list given a partial substitution: a substituted hole
emits its replacement, an unsubstituted hole emits the literal text `{i}`. -/
def render (f : Nat → Option (List Char)) : List Tok → List Char
  | [] => []
  | Tok.lit c :: ts => c :: render f ts
  | Tok.hole j :: ts =>
    (match f j with
     | some s => s
     | none => patOf j) ++ render f ts

/-- The partial substitution after the first `k` iterations of the
`formatGuid` loop: holes `0..k-1` carry their replacement, the rest are
still unsubstituted. -/
def subF (hx : Nat → List Char) (k : Nat) : Nat → Option (List Char) :=
  fun j => if j < k then some (hx j) else none

/-- Non-interference of two hole patterns: `pi` cannot match anywhere a text
starting with `pj` starts. -/
def noConf (pi pj : List Char) : Bool :=
  if pi.length ≤ pj.length then !(isPre pi pj) else !(isPre pj pi)

/-- Every hole index occurring in the token list is below `n`. -/
def holesLT (n : Nat) : List Tok → Bool
  | [] => true
  | Tok.lit _ :: ts => holesLT n ts
  | Tok.hole j :: ts => decide (j < n) && holesLT n ts

/-- No literal token is the opening brace. -/
def litsOK : List Tok → Bool
  | [] => true
  | Tok.lit c :: ts => decide (c ≠ braceL) && litsOK ts
  | Tok.hole _ :: ts => litsOK ts

/-- A JavaScript value as it appears in a decoded profile object: a string,
a byte buffer, an array, or an (opaque) control-JSON object. -/
inductive JVal
  | jStr : List Char → JVal
  | jBuf : List Nat → JVal
  | jArr : List JVal → JVal
  | jCtl : List Char → JVal

/-- A decoded profile object: ordered key/value pairs with unique keys,
modelling a plain JavaScript object. -/
abbrev Obj := List (List Char × JVal)

/-- One attribute of a raw `ldapjs` search entry: a type name, the
string-decoded value list `vals`, and the raw byte-sequence list `buffers`. -/
structure RawAttribute where
  type : List Char
  vals : List (List Char)
  buffers : List (List Nat)
  deriving DecidableEq

/-- One response control of a raw search entry; the code only reads its
`json` projection, modelled as an opaque payload. -/
structure RawControl where
  json : List Char
  deriving DecidableEq

/-- A raw `ldapjs` search entry: distinguished name, attributes, controls. -/
structure RawEntry where
  dn : List Char
  attributes : List RawAttribute
  controls : List RawControl

/-- The attribute type name special-cased to raw bytes. -/
def typeThumb : List Char := "thumbnailPhoto".toList

/-- The attribute type name special-cased to GUID formatting. -/
def typeGuid : List Char := "objectGUID".toList

/-- The `dn` key of the decoded object. -/
def keyDn : List Char := "dn".toList

/-- The `controls` key of the decoded object. -/
def keyControls : List Char := "controls".toList

/-- The collapsing step of `decodeSearchEntry` for an array-valued item
(`decodeSearchEntry.js` lines 34-42): an empty array yields `[]`, a
one-element array yields the bare element, two or more elements yield the
(shallow-copied) array. -/
def collapseArr (xs : List JVal) : JVal :=
  match xs with
  | [] => JVal.jArr []
  | [x] => x
  | _ => JVal.jArr xs

/-- The collapsing step for the string-valued `objectGUID` item: an empty
string is falsy and yields `[]`; a nonempty string yields itself (both
`item.slice()` and `item[0]` of a 1-character string are the same text). -/
def collapseStr (g : List Char) : JVal :=
  if g = [] then JVal.jArr [] else JVal.jStr g

/-- The per-attribute `switch` of `decodeSearchEntry` plus the collapsing
rule. For `objectGUID` with an empty buffer list, `formatGuid(buf[0])`
dereferences `undefined` (`data.length` throws a `TypeError`), modelled as
`none`. -/
def decodeAttr (a : RawAttribute) : Option JVal :=
  if a.type = typeThumb then some (collapseArr (a.buffers.map JVal.jBuf))
  else if a.type = typeGuid then
    match a.buffers with
    | [] => none
    | b :: _ => some (collapseStr (formatGuid b))
  else some (collapseArr (a.vals.map JVal.jStr))

/-- JavaScript property assignment `obj[k] = v`: replaces the value in place
if the key exists, appends otherwise. -/
def objInsert (k : List Char) (v : JVal) : Obj → Obj
  | [] => [(k, v)]
  | (k0, v0) :: rest => if k0 = k then (k, v) :: rest else (k0, v0) :: objInsert k v rest

/-- JavaScript property read `obj[k]`. -/
def lookupKey (k : List Char) : Obj → Option JVal
  | [] => none
  | (k0, v) :: rest => if k0 = k then some v else lookupKey k rest

/-- The `entry.attributes.forEach` loop of `decodeSearchEntry`. -/
def decodeAttrs : List RawAttribute → Obj → Option Obj
  | [], o => some o
  | a :: as, o =>
    match decodeAttr a with
    | none => none
    | some v => decodeAttrs as (objInsert a.type v o)

/-- The `entry.controls.forEach` loop: `obj.controls.push(element.json)`.
If an attribute named `controls` overwrote the initial array with a
non-array value, `push` is not a function and the call throws (`none`). -/
def pushControls : List RawControl → Obj → Option Obj
  | [], o => some o
  | c :: cs, o =>
    match lookupKey keyControls o with
    | some (JVal.jArr l) =>
      pushControls cs (objInsert keyControls (JVal.jArr (l ++ [JVal.jCtl c.json])) o)
    | _ => none

/-- `decodeSearchEntry` (`decodeSearchEntry.js` lines 12-49): start from
`{ dn: entry.dn.toString(), controls: [] }`, fold the attributes, then push
the controls. -/
def decodeSearchEntry (e : RawEntry) : Option Obj :=
  match decodeAttrs e.attributes [(keyDn, JVal.jStr e.dn), (keyControls, JVal.jArr [])] with
  | none => none
  | some o1 => pushControls e.controls o1

/-- An error object, identified by its `errno` property (the only property
`LdapValidator` inspects). -/
structure ErrInfo where
  errno : List Char
  deriving DecidableEq

/-- The error code suppressed by the connection error handler when
auto-reconnect is enabled (`LdapValidator.js` line 74). -/
def ECONNRESET : List Char := "ECONNRESET".toList

/-- The completion-relevant mutable state of one `validate` attempt: the
one-shot latch `notSent`, the number of `client.destroy()` calls so far, and
the list of outer-callback invocations (error, profile-or-null). -/
structure CbState where
  notSent : Bool
  destroyCount : Nat
  calls : List (Option ErrInfo × Option Obj)

/-- One invocation of `_callback(err)` (`LdapValidator.js` lines 171-179):
`client.destroy()` runs unconditionally; the outer callback fires only when
the `notSent` latch is still set, receiving the profile only when
`isAuthenticated`. -/
def callbackStep (isAuthenticated : Bool) (userProfile : Option Obj)
    (err : Option ErrInfo) (st : CbState) : CbState :=
  let st1 : CbState := { st with destroyCount := st.destroyCount + 1 }
  if st1.notSent then
    { st1 with notSent := false,
               calls := st1.calls ++ [(err, if isAuthenticated then userProfile else none)] }
  else st1

/-- A completion-attempt event of one `validate` attempt: a connection
`error` event, or the `async.series` final callback with its error. -/
inductive AttemptEvent
  | connError (e : ErrInfo)
  | seriesComplete (err : Option ErrInfo)

/-- Whether the connection error handler suppresses the event: an
`ECONNRESET` while the client is configured to reconnect. -/
def suppressed (reconnect : Bool) : AttemptEvent → Bool
  | AttemptEvent.connError e => decide (e.errno = ECONNRESET) && reconnect
  | AttemptEvent.seriesComplete _ => false

/-- The error that a completion-attempt event passes to `_callback`. -/
def eventErr : AttemptEvent → Option ErrInfo
  | AttemptEvent.connError e => some e
  | AttemptEvent.seriesComplete err => err

/-- Deliver a list of completion-attempt events, in firing order, to the
`_callback` latch. -/
def runEvents (reconnect isAuthenticated : Bool) (userProfile : Option Obj) :
    List AttemptEvent → CbState → CbState
  | [], st => st
  | ev :: evs, st =>
    if suppressed reconnect ev then
      runEvents reconnect isAuthenticated userProfile evs st
    else
      runEvents reconnect isAuthenticated userProfile evs
        (callbackStep isAuthenticated userProfile (eventErr ev) st)

/-- The attempt state right after `validate`'s guards pass: latch set, no
destroy, no callback yet. -/
def initCbState : CbState := { notSent := true, destroyCount := 0, calls := [] }

/-- One notification of the search result stream (`res.on(...)` handlers in
the `search` step). -/
inductive SearchEvent
  | entryEv (e : RawEntry)
  | errorEv (err : ErrInfo)
  | endEv

/-- Fold of the search result stream against the handlers of the `search`
step: entries accumulate; the first `error` or `end` notification wins the
inner `notCbSent` latch (`some (err?, entries-so-far)`); a stream with no
terminating notification leaves the step pending (`none`). -/
def searchOutcome : List SearchEvent → List RawEntry → Option (Option ErrInfo × List RawEntry)
  | [], _ => none
  | SearchEvent.entryEv e :: rest, acc => searchOutcome rest (acc ++ [e])
  | SearchEvent.errorEv err :: _, acc => some (some err, acc)
  | SearchEvent.endEv :: _, acc => some (none, acc)

/-- The directory's behaviour for one attempt: the result of the service
bind, of the `client.search` invocation itself, the search result stream,
the unbind result, and the verification bind result. -/
structure Oracle where
  bindErr : Option ErrInfo
  searchCallErr : Option ErrInfo
  searchEvents : List SearchEvent
  unbindErr : Option ErrInfo
  userBindErr : Option ErrInfo

/-- JavaScript truthiness of a profile value (`!userProfile.dn`): an empty
string is falsy; objects, arrays and buffers are truthy. -/
def jTruthy : JVal → Bool
  | JVal.jStr s => !s.isEmpty
  | JVal.jBuf _ => true
  | JVal.jArr _ => true
  | JVal.jCtl _ => true

/-- Truthiness of `userProfile.dn`: the property must exist and be truthy. -/
def profileDnTruthy (o : Obj) : Bool :=
  match lookupKey keyDn o with
  | none => false
  | some v => jTruthy v

/-- Result of running the `async.series([bind, search, unbind, validate])`
sequence with no interleaved connection error: whether (and with which
error) the final callback fired, the decoded profile, the authentication
flag, whether the verification bind was issued, and whether
`decodeSearchEntry` threw inside the `end` handler. -/
structure SeriesResult where
  completed : Option (Option ErrInfo)
  userProfile : Option Obj
  isAuthenticated : Bool
  userBindAttempted : Bool
  decodeThrew : Bool

/-- Steps 3-4 of the series (`unbind` then the `validate` step of
`LdapValidator.js` lines 136-162): unbind failure is passed to the series
callback; the verification bind is skipped without a profile or without a
truthy `dn`; a verification bind error is swallowed (`cb()` with no error);
success sets `isAuthenticated`. -/
def unbindAndVerify (o : Oracle) (prof : Option Obj) : SeriesResult :=
  match o.unbindErr with
  | some e =>
    { completed := some (some e), userProfile := prof, isAuthenticated := false,
      userBindAttempted := false, decodeThrew := false }
  | none =>
    match prof with
    | none =>
      { completed := some none, userProfile := none, isAuthenticated := false,
        userBindAttempted := false, decodeThrew := false }
    | some p =>
      if profileDnTruthy p then
        match o.userBindErr with
        | some _ =>
          { completed := some none, userProfile := some p, isAuthenticated := false,
            userBindAttempted := true, decodeThrew := false }
        | none =>
          { completed := some none, userProfile := some p, isAuthenticated := true,
            userBindAttempted := true, decodeThrew := false }
      else
        { completed := some none, userProfile := some p, isAuthenticated := false,
          userBindAttempted := false, decodeThrew := false }

/-- The full `async.series([bind, search, unbind, validate])` sequence of
`validate` (`LdapValidator.js` lines 78-162), driven by an oracle: any step
error aborts the series with that error; the `end` handler decodes the
first collected entry (`entries[0]`), whose failure is an uncaught throw. -/
def runValidateSeries (o : Oracle) : SeriesResult :=
  match o.bindErr with
  | some e =>
    { completed := some (some e), userProfile := none, isAuthenticated := false,
      userBindAttempted := false, decodeThrew := false }
  | none =>
    match o.searchCallErr with
    | some e =>
      { completed := some (some e), userProfile := none, isAuthenticated := false,
        userBindAttempted := false, decodeThrew := false }
    | none =>
      match searchOutcome o.searchEvents [] with
      | none =>
        { completed := none, userProfile := none, isAuthenticated := false,
          userBindAttempted := false, decodeThrew := false }
      | some (some err, _) =>
        { completed := some (some err), userProfile := none, isAuthenticated := false,
          userBindAttempted := false, decodeThrew := false }
      | some (none, []) => unbindAndVerify o none
      | some (none, e0 :: _) =>
        match decodeSearchEntry e0 with
        | none =>
          { completed := none, userProfile := none, isAuthenticated := false,
            userBindAttempted := false, decodeThrew := true }
        | some prof => unbindAndVerify o (some prof)

/-- The outer-callback invocations produced by the bare series (no
connection error events): one `_callback(err)` with the
`isAuthenticated ? userProfile : null` payload, or none if still pending. -/
def seriesCalls (r : SeriesResult) : List (Option ErrInfo × Option Obj) :=
  match r.completed with
  | none => []
  | some err => [(err, if r.isAuthenticated then r.userProfile else none)]

/-- A JavaScript value passed as `username` or `password` to `validate`. -/
inductive JSV
  | jsStr (s : List Char)
  | jsNum (n : Int)
  | jsBool (b : Bool)
  | jsUndefined
  | jsNull
  | jsObject
  | jsArray

/-- Whether `typeof v === 'string'`. -/
def isJsString : JSV → Bool
  | JSV.jsStr _ => true
  | _ => false

/-- The fast-path guard of `validate` (`LdapValidator.js` lines 64-68):
`typeof v !== 'string' || !v.length`. -/
def guardRejects : JSV → Bool
  | JSV.jsStr s => s.isEmpty
  | _ => true

/-- The synchronous outcome of entering `validate`. On the fast path the
code runs `return _callback()`, whose first statement reads `client` — a
`let` binding not yet initialized, hence in its temporal dead zone — so the
call throws a `ReferenceError` before the outer callback can fire. -/
inductive StartResult
  | threwReferenceError
  | started
  deriving DecidableEq

/-- Observable effects of the synchronous prefix of one `validate` call. -/
structure StartState where
  result : StartResult
  clientCreated : Bool
  calls : List (Option ErrInfo × Option Obj)

/-- The synchronous prefix of `validate(username, password, callback)`
(`LdapValidator.js` lines 58-80): guards first (each rejected guard runs
`_callback()`, which throws on the uninitialized `client`), then the client
is created and the series is started. -/
def validateStart (username password : JSV) : StartState :=
  if guardRejects username then
    { result := StartResult.threwReferenceError, clientCreated := false, calls := [] }
  else if guardRejects password then
    { result := StartResult.threwReferenceError, clientCreated := false, calls := [] }
  else
    { result := StartResult.started, clientCreated := true, calls := [] }

/-- `DEFAULT_SEARCH_QUERY` (`LdapValidator.js` line 5). -/
def DEFAULT_SEARCH_QUERY : List Char :=
  "(&(objectclass=user)(|(sAMAccountName={0})(UserPrincipalName={0})))".toList

/-- The placeholder text matched by the regex `/\{0\}/ig` of the `search`
step (no cased characters, so the `i` flag is inert). -/
def placeholder : List Char := "{0}".toList

/-- The filter computed by the `search` step (`LdapValidator.js` line 101):
`self._search_query.replace(/\{0\}/ig, username)`. -/
def searchFilter (query username : List Char) : List Char :=
  jsReplace placeholder username query

/-- The constructor's template selection (`LdapValidator.js` line 27):
`options.search_query || DEFAULT_SEARCH_QUERY` (an absent or empty template
falls back to the default). -/
def effectiveSearchQuery (search_query : Option (List Char)) : List Char :=
  match search_query with
  | none => DEFAULT_SEARCH_QUERY
  | some q => if q.isEmpty then DEFAULT_SEARCH_QUERY else q

theorem scanRepl_nil (pat : List Char) (f : Nat → List Char) (pos : Nat) :
    scanRepl pat f pos [] = [] := rfl

theorem scanRepl_cons_skip (pat : List Char) (f : Nat → List Char) (pos : Nat)
    (c : Char) (rest : List Char) (h : isPre pat (c :: rest) = false) :
    scanRepl pat f pos (c :: rest) = c :: scanRepl pat f (pos + 1) rest := by
  show (if 0 < pat.length ∧ isPre pat (c :: rest) = true then
          f pos ++ scanAux pat f (pat.length - 1) (pos + 1) rest
        else c :: scanAux pat f 0 (pos + 1) rest) = c :: scanRepl pat f (pos + 1) rest
  rw [if_neg (by simp [h])]
  rfl

theorem scanRepl_cons_hit (pat : List Char) (f : Nat → List Char) (pos : Nat)
    (c : Char) (rest : List Char) (hp : 0 < pat.length)
    (h : isPre pat (c :: rest) = true) :
    scanRepl pat f pos (c :: rest)
      = f pos ++ scanAux pat f (pat.length - 1) (pos + 1) rest := by
  show (if 0 < pat.length ∧ isPre pat (c :: rest) = true then
          f pos ++ scanAux pat f (pat.length - 1) (pos + 1) rest
        else c :: scanAux pat f 0 (pos + 1) rest) = _
  rw [if_pos ⟨hp, h⟩]

theorem scanAux_skip_eat (pat : List Char) (f : Nat → List Char) :
    ∀ (u : List Char) (pos : Nat) (t : List Char),
      scanAux pat f u.length pos (u ++ t) = scanAux pat f 0 (pos + u.length) t := by
  intro u
  induction u with
  | nil => intro pos t; rfl
  | cons c cs ih =>
    intro pos t
    have e1 : scanAux pat f (c :: cs).length pos ((c :: cs) ++ t)
        = scanAux pat f cs.length (pos + 1) (cs ++ t) := rfl
    rw [e1, ih (pos + 1) t]
    have harith : pos + 1 + cs.length = pos + (c :: cs).length := by
      simp only [List.length_cons]
      omega
    rw [harith]

theorem isPre_append_self (p t : List Char) : isPre p (p ++ t) = true := by
  induction p with
  | nil => simp [isPre]
  | cons a as ih => simp [isPre, ih]

theorem scanRepl_hit_append (pat : List Char) (f : Nat → List Char) (pos : Nat)
    (t : List Char) (hp : 0 < pat.length) :
    scanRepl pat f pos (pat ++ t) = f pos ++ scanRepl pat f (pos + pat.length) t := by
  match pat, hp with
  | p :: pt, _ =>
    have h : isPre (p :: pt) ((p :: pt) ++ t) = true := isPre_append_self _ _
    rw [List.cons_append] at h
    rw [List.cons_append, scanRepl_cons_hit _ _ _ _ _ (by simp) h]
    have hl : (p :: pt).length - 1 = pt.length := by simp
    rw [hl, scanAux_skip_eat]
    have harith : pos + 1 + pt.length = pos + (p :: pt).length := by
      simp only [List.length_cons]
      omega
    rw [harith]
    rfl

theorem scanRepl_skip_chunk (p0 : Char) (pt : List Char) (f : Nat → List Char) :
    ∀ (s : List Char) (pos : Nat) (t : List Char), (∀ c ∈ s, c ≠ p0) →
    scanRepl (p0 :: pt) f pos (s ++ t) = s ++ scanRepl (p0 :: pt) f (pos + s.length) t := by
  intro s
  induction s with
  | nil => intro pos t _; simp
  | cons c cs ih =>
    intro pos t hs
    have hc : c ≠ p0 := hs c (by simp)
    have hpre : isPre (p0 :: pt) (c :: (cs ++ t)) = false := by
      simp [isPre]
      intro heq
      exact absurd heq.symm hc
    rw [List.cons_append, scanRepl_cons_skip _ _ _ _ _ hpre,
      ih (pos + 1) t (fun d hd => hs d (by simp [hd]))]
    have harith : pos + 1 + cs.length = pos + (c :: cs).length := by
      simp only [List.length_cons]
      omega
    rw [harith, List.cons_append]

theorem scanRepl_chunk_all (p0 : Char) (pt : List Char) (f : Nat → List Char)
    (s : List Char) (pos : Nat) (hs : ∀ c ∈ s, c ≠ p0) :
    scanRepl (p0 :: pt) f pos s = s := by
  have h := scanRepl_skip_chunk p0 pt f s pos [] hs
  rw [List.append_nil] at h
  rw [h, scanRepl_nil, List.append_nil]

theorem scanRepl_pat_nil (f : Nat → List Char) :
    ∀ (s : List Char) (pos : Nat), scanRepl [] f pos s = s := by
  intro s
  induction s with
  | nil => intro pos; rfl
  | cons c rest ih =>
    intro pos
    have e1 : scanRepl [] f pos (c :: rest)
        = if 0 < ([] : List Char).length ∧ isPre [] (c :: rest) = true then
            f pos ++ scanAux [] f (([] : List Char).length - 1) (pos + 1) rest
          else c :: scanAux [] f 0 (pos + 1) rest := rfl
    rw [e1, if_neg (by simp)]
    show c :: scanRepl [] f (pos + 1) rest = c :: rest
    rw [ih]

theorem scanAux_congr (pat : List Char) (f g : Nat → List Char)
    (hfg : ∀ pos, f pos = g pos) :
    ∀ (s : List Char) (skip pos : Nat), scanAux pat f skip pos s = scanAux pat g skip pos s := by
  intro s
  induction s with
  | nil => intro skip pos; cases skip <;> rfl
  | cons c rest ih =>
    intro skip pos
    match skip with
    | 0 =>
      have e1 : scanAux pat f 0 pos (c :: rest)
          = if 0 < pat.length ∧ isPre pat (c :: rest) = true then
              f pos ++ scanAux pat f (pat.length - 1) (pos + 1) rest
            else c :: scanAux pat f 0 (pos + 1) rest := rfl
      have e2 : scanAux pat g 0 pos (c :: rest)
          = if 0 < pat.length ∧ isPre pat (c :: rest) = true then
              g pos ++ scanAux pat g (pat.length - 1) (pos + 1) rest
            else c :: scanAux pat g 0 (pos + 1) rest := rfl
      rw [e1, e2]
      by_cases hcond : 0 < pat.length ∧ isPre pat (c :: rest) = true
      · rw [if_pos hcond, if_pos hcond, hfg pos, ih _ _]
      · rw [if_neg hcond, if_neg hcond, ih _ _]
    | skip + 1 =>
      show scanAux pat f skip (pos + 1) rest = scanAux pat g skip (pos + 1) rest
      exact ih _ _

theorem getSubstitution_no_dollar (matched before after : List Char) :
    ∀ (repl : List Char), (∀ c ∈ repl, c ≠ '$') →
      getSubstitution matched before after repl = repl := by
  intro repl
  induction repl with
  | nil => intro _; simp [getSubstitution]
  | cons c rest ih =>
    intro h
    have hc : ¬ (c = '$') := fun hc => h c (by simp) (by simp [hc])
    rw [getSubstitution.eq_def]
    simp only [if_neg hc]
    rw [ih (fun d hd => h d (by simp [hd]))]

theorem jsReplace_eq_replaceLit (pat repl s : List Char)
    (h : ∀ c ∈ repl, c ≠ '$') : jsReplace pat repl s = replaceLit pat repl s := by
  unfold jsReplace replaceLit scanRepl
  exact scanAux_congr pat _ _
    (fun pos => getSubstitution_no_dollar _ _ _ repl h) s 0 0

theorem isPre_of_append_le (p : List Char) :
    ∀ (s t : List Char), isPre p (s ++ t) = true → p.length ≤ s.length →
      isPre p s = true := by
  induction p with
  | nil => intro s t _ _; simp [isPre]
  | cons a as ih =>
    intro s t hpre hlen
    match s with
    | [] => simp at hlen
    | b :: bs =>
      rw [List.cons_append] at hpre
      simp only [isPre, Bool.and_eq_true] at hpre ⊢
      exact ⟨hpre.1, ih bs t hpre.2 (by simp at hlen ⊢; omega)⟩

theorem isPre_rev_of_le :
    ∀ (s p t : List Char), isPre p (s ++ t) = true → s.length ≤ p.length →
      isPre s p = true := by
  intro s
  induction s with
  | nil => intro p t _ _; simp [isPre]
  | cons b bs ih =>
    intro p t hpre hlen
    match p with
    | [] => simp at hlen
    | a :: as =>
      rw [List.cons_append] at hpre
      simp only [isPre, Bool.and_eq_true] at hpre ⊢
      have hab : a = b := eq_of_beq hpre.1
      exact ⟨by simp [hab], ih as t hpre.2 (by simp at hlen ⊢; omega)⟩

theorem noConf_no_match (pi pj : List Char) (h : noConf pi pj = true) (t : List Char) :
    isPre pi (pj ++ t) = false := by
  cases hm : isPre pi (pj ++ t)
  · rfl
  · exfalso
    unfold noConf at h
    by_cases hlen : pi.length ≤ pj.length
    · rw [if_pos hlen, isPre_of_append_le pi pj t hm hlen] at h
      simp at h
    · rw [if_neg hlen, isPre_rev_of_le pj pi t hm (by omega)] at h
      simp at h

theorem patOf_cons (i : Nat) : patOf i = braceL :: ((toString i).toList ++ [braceR]) := rfl

theorem patOf_pos (i : Nat) : 0 < (patOf i).length := by
  rw [patOf_cons]; simp

theorem noConf_pat : ∀ k, k < 16 → ∀ j, j < 16 → j ≠ k →
    noConf (patOf k) (patOf j) = true := by decide

theorem patOf_tail_no_brace : ∀ j, j < 16 →
    ∀ c ∈ (toString j).toList ++ [braceR], c ≠ braceL := by decide

theorem scan_render_step (k : Nat) (hk : k < 16) (hx : Nat → List Char)
    (hbr : ∀ j c, c ∈ hx j → c ≠ braceL) :
    ∀ (ts : List Tok), holesLT 16 ts = true → litsOK ts = true → ∀ (pos : Nat),
      scanRepl (patOf k) (fun _ => hx k) pos (render (subF hx k) ts)
        = render (subF hx (k + 1)) ts := by
  intro ts
  induction ts with
  | nil => intro _ _ pos; simp [render, scanRepl_nil]
  | cons t ts ih =>
    intro hholes hlits pos
    match t with
    | Tok.lit c =>
      have hc : c ≠ braceL := by
        simp only [litsOK, Bool.and_eq_true, decide_eq_true_eq] at hlits
        exact hlits.1
      have hlits' : litsOK ts = true := by
        simp only [litsOK, Bool.and_eq_true] at hlits
        exact hlits.2
      have hholes' : holesLT 16 ts = true := by simpa [holesLT] using hholes
      have hpre : isPre (patOf k) (c :: render (subF hx k) ts) = false := by
        rw [patOf_cons]
        simp only [isPre, Bool.and_eq_true]
        cases hbc : braceL == c
        · simp
        · exact absurd (eq_of_beq hbc).symm hc
      rw [render, scanRepl_cons_skip _ _ _ _ _ hpre, ih hholes' hlits' (pos + 1), render]
    | Tok.hole j =>
      simp only [holesLT, Bool.and_eq_true, decide_eq_true_eq] at hholes
      obtain ⟨hj16, hholes'⟩ := hholes
      have hlits' : litsOK ts = true := by simpa [litsOK] using hlits
      rcases Nat.lt_trichotomy j k with hjk | hjk | hjk
      · have e1 : render (subF hx k) (Tok.hole j :: ts)
            = hx j ++ render (subF hx k) ts := by
          simp [render, subF, hjk]
        have e2 : render (subF hx (k + 1)) (Tok.hole j :: ts)
            = hx j ++ render (subF hx (k + 1)) ts := by
          simp [render, subF, Nat.lt_succ_of_lt hjk]
        rw [e1, e2, patOf_cons k,
          scanRepl_skip_chunk _ _ _ (hx j) pos _ (fun c hc => hbr j c hc),
          ← patOf_cons k, ih hholes' hlits' _]
      · subst hjk
        have e1 : render (subF hx j) (Tok.hole j :: ts)
            = patOf j ++ render (subF hx j) ts := by
          simp [render, subF]
        have e2 : render (subF hx (j + 1)) (Tok.hole j :: ts)
            = hx j ++ render (subF hx (j + 1)) ts := by
          simp [render, subF]
        rw [e1, scanRepl_hit_append _ _ _ _ (patOf_pos j), ih hholes' hlits' _, e2]
      · have e1 : render (subF hx k) (Tok.hole j :: ts)
            = patOf j ++ render (subF hx k) ts := by
          simp [render, subF, Nat.lt_asymm hjk]
        have e2 : render (subF hx (k + 1)) (Tok.hole j :: ts)
            = patOf j ++ render (subF hx (k + 1)) ts := by
          have hnotlt : ¬ j < k + 1 := by omega
          simp [render, subF, hnotlt]
        have hnc : noConf (patOf k) (patOf j) = true :=
          noConf_pat k hk j hj16 (Nat.ne_of_gt hjk)
        have hpre0 : isPre (patOf k) (patOf j ++ render (subF hx k) ts) = false :=
          noConf_no_match _ _ hnc _
        rw [e1, e2, patOf_cons j, List.cons_append,
          scanRepl_cons_skip _ _ _ _ _ (by rw [← List.cons_append, ← patOf_cons j]; exact hpre0),
          patOf_cons k,
          scanRepl_skip_chunk _ _ _ _ _ _ (patOf_tail_no_brace j hj16),
          ← patOf_cons k, ih hholes' hlits' _]
        simp [List.append_assoc]

theorem fold_formatGuid (hx : Nat → List Char) (hbr : ∀ j c, c ∈ hx j → c ≠ braceL) :
    ∀ (k : Nat), k ≤ 16 →
      (List.range k).foldl (fun fmt i => replaceLit (patOf i) (hx i) fmt) guidFormat
        = render (subF hx k) guidToks := by
  intro k
  induction k with
  | zero =>
    intro _
    have h0 : subF hx 0 = fun _ => none := by
      funext j
      simp [subF]
    rw [List.range_zero, List.foldl_nil, h0]
    decide
  | succ k ih =>
    intro hk1
    have hk : k < 16 := by omega
    rw [List.range_succ, List.foldl_append, ih (by omega), List.foldl_cons, List.foldl_nil]
    unfold replaceLit
    exact scan_render_step k hk hx hbr guidToks (by decide) (by decide) 0

theorem hexDigit_mem (n : Nat) : hexDigit n ∈ hexChars := by
  by_cases h : n < 16
  · interval_cases n <;> decide
  · unfold hexDigit
    rw [List.getD_eq_default]
    · decide
    · simp [hexChars]
      omega

theorem toHexString_subset (n : Nat) : ∀ c ∈ toHexString n, c ∈ hexChars := by
  induction n using Nat.strong_induction_on with
  | _ n ih =>
    rw [toHexString]
    by_cases h : n < 16
    · rw [if_pos h]
      intro c hc
      simp at hc
      rw [hc]
      exact hexDigit_mem n
    · rw [if_neg h]
      intro c hc
      rcases List.mem_append.mp hc with hc | hc
      · exact ih (n / 16) (Nat.div_lt_self (by omega) (by omega)) c hc
      · simp at hc
        rw [hc]
        exact hexDigit_mem _

theorem byteHex_subset (n : Nat) : ∀ c ∈ byteHex n, c ∈ hexChars := by
  unfold byteHex
  by_cases h : 16 ≤ n
  · rw [if_pos h]
    exact toHexString_subset n
  · rw [if_neg h]
    intro c hc
    rcases List.mem_cons.mp hc with hc | hc
    · rw [hc]; decide
    · exact toHexString_subset n c hc

theorem byteHex_ne_brace (n : Nat) : ∀ c ∈ byteHex n, c ≠ braceL := by
  intro c hc hEq
  have h := byteHex_subset n c hc
  rw [hEq] at h
  exact absurd h (by decide)

theorem byteHex_no_dollar (n : Nat) : ∀ c ∈ byteHex n, c ≠ '$' := by
  intro c hc hEq
  have h := byteHex_subset n c hc
  rw [hEq] at h
  exact absurd h (by decide)

theorem byteHex_len2 {n : Nat} (h : n < 256) : (byteHex n).length = 2 := by
  unfold byteHex
  by_cases h16 : 16 ≤ n
  · rw [if_pos h16, toHexString, if_neg (by omega), toHexString,
      if_pos (by omega : n / 16 < 16)]
    simp
  · rw [if_neg h16, toHexString, if_pos (by omega)]
    simp

theorem formatGuid_eq_fold (data : List Nat) :
    formatGuid data = (List.range data.length).foldl
      (fun fmt i => replaceLit (patOf i) (byteHex (data.getD i 0)) fmt) guidFormat := by
  unfold formatGuid
  apply List.foldl_ext
  intro fmt i _
  exact jsReplace_eq_replaceLit _ _ _ (byteHex_no_dollar _)

theorem render_subF16 (hx : Nat → List Char) :
    render (subF hx 16) guidToks
      = hx 3 ++ (hx 2 ++ (hx 1 ++ (hx 0 ++ '-' ::
        (hx 5 ++ (hx 4 ++ '-' :: (hx 7 ++ (hx 6 ++ '-' ::
        (hx 8 ++ (hx 9 ++ '-' ::
        (hx 10 ++ (hx 11 ++ (hx 12 ++ (hx 13 ++ (hx 14 ++ hx 15)))))))))))))) := by
  simp [render, guidToks, subF]

theorem formatGuid_explicit (d0 d1 d2 d3 d4 d5 d6 d7 d8 d9 d10 d11 d12 d13 d14 d15 : Nat) :
    formatGuid [d0, d1, d2, d3, d4, d5, d6, d7, d8, d9, d10, d11, d12, d13, d14, d15]
      = byteHex d3 ++ (byteHex d2 ++ (byteHex d1 ++ (byteHex d0 ++ '-' ::
        (byteHex d5 ++ (byteHex d4 ++ '-' :: (byteHex d7 ++ (byteHex d6 ++ '-' ::
        (byteHex d8 ++ (byteHex d9 ++ '-' ::
        (byteHex d10 ++ (byteHex d11 ++ (byteHex d12 ++ (byteHex d13 ++
        (byteHex d14 ++ byteHex d15)))))))))))))) := by
  have hx_eq := fold_formatGuid
    (fun j => byteHex (List.getD [d0, d1, d2, d3, d4, d5, d6, d7, d8, d9, d10, d11, d12, d13, d14, d15] j 0))
    (fun j => byteHex_ne_brace _) 16 (Nat.le_refl 16)
  rw [formatGuid_eq_fold]
  have h16 : ([d0, d1, d2, d3, d4, d5, d6, d7, d8, d9, d10, d11, d12, d13, d14, d15] : List Nat).length = 16 := rfl
  rw [h16, hx_eq, render_subF16]
  simp [List.getD]

theorem lookupKey_objInsert (k k0 : List Char) (v : JVal) :
    ∀ (o : Obj), lookupKey k (objInsert k0 v o)
      = if k0 = k then some v else lookupKey k o := by
  intro o
  induction o with
  | nil =>
    simp only [objInsert, lookupKey]
  | cons p rest ih =>
    match p with
    | (k1, v1) =>
      by_cases h1 : k1 = k0
      · subst h1
        simp only [objInsert, if_pos rfl, lookupKey]
        by_cases h2 : k1 = k <;> simp [h2]
      · simp only [objInsert, if_neg h1, lookupKey]
        by_cases h2 : k1 = k
        · subst h2
          rw [if_pos rfl]
          rw [if_neg (fun h => h1 h.symm)]
          simp [lookupKey]
        · rw [if_neg h2, ih, if_neg h2]

theorem decodeAttr_isSome (a : RawAttribute)
    (hG : a.type = typeGuid → a.buffers ≠ []) : ∃ v, decodeAttr a = some v := by
  unfold decodeAttr
  by_cases h1 : a.type = typeThumb
  · rw [if_pos h1]
    exact ⟨_, rfl⟩
  · rw [if_neg h1]
    by_cases h2 : a.type = typeGuid
    · rw [if_pos h2]
      match hb : a.buffers with
      | [] => exact absurd hb (hG h2)
      | b :: bs => exact ⟨_, rfl⟩
    · rw [if_neg h2]
      exact ⟨_, rfl⟩

theorem decodeAttrs_total :
    ∀ (attrs : List RawAttribute) (o : Obj),
      (∀ a ∈ attrs, a.type = typeGuid → a.buffers ≠ []) →
      ∃ o1, decodeAttrs attrs o = some o1 := by
  intro attrs
  induction attrs with
  | nil => intro o _; exact ⟨o, rfl⟩
  | cons a as ih =>
    intro o hG
    obtain ⟨v, hv⟩ := decodeAttr_isSome a (hG a (by simp))
    obtain ⟨o1, ho1⟩ := ih (objInsert a.type v o) (fun b hb => hG b (by simp [hb]))
    exact ⟨o1, by simp only [decodeAttrs, hv]; exact ho1⟩

theorem decodeAttrs_preserves_key :
    ∀ (attrs : List RawAttribute) (o o1 : Obj) (k : List Char),
      decodeAttrs attrs o = some o1 → lookupKey k o ≠ none → lookupKey k o1 ≠ none := by
  intro attrs
  induction attrs with
  | nil => intro o o1 k h hk; cases h; exact hk
  | cons a as ih =>
    intro o o1 k h hk
    simp only [decodeAttrs] at h
    match hv : decodeAttr a with
    | none => rw [hv] at h; cases h
    | some v =>
      rw [hv] at h
      refine ih _ _ _ h ?_
      rw [lookupKey_objInsert]
      by_cases he : a.type = k
      · simp [he]
      · rw [if_neg he]; exact hk

theorem decodeAttrs_mem_key :
    ∀ (attrs : List RawAttribute) (o o1 : Obj),
      decodeAttrs attrs o = some o1 →
      ∀ a ∈ attrs, lookupKey a.type o1 ≠ none := by
  intro attrs
  induction attrs with
  | nil => intro o o1 _ a ha; cases ha
  | cons a as ih =>
    intro o o1 h b hb
    simp only [decodeAttrs] at h
    match hv : decodeAttr a with
    | none => rw [hv] at h; cases h
    | some v =>
      rw [hv] at h
      rcases List.mem_cons.mp hb with hb | hb
      · subst hb
        refine decodeAttrs_preserves_key as _ _ _ h ?_
        rw [lookupKey_objInsert, if_pos rfl]
        simp
      · exact ih _ _ h b hb

theorem collapseArr_of_ne_one (xs : List JVal) (h : xs.length ≠ 1) :
    ∃ l, collapseArr xs = JVal.jArr l := by
  match xs with
  | [] => exact ⟨[], rfl⟩
  | [x] => simp at h
  | x :: y :: rest => exact ⟨x :: y :: rest, rfl⟩

theorem decodeAttrs_controls_inv :
    ∀ (attrs : List RawAttribute) (o o1 : Obj),
      (∀ a ∈ attrs, a.type = keyControls → a.vals.length ≠ 1) →
      (∃ l, lookupKey keyControls o = some (JVal.jArr l)) →
      decodeAttrs attrs o = some o1 →
      ∃ l, lookupKey keyControls o1 = some (JVal.jArr l) := by
  intro attrs
  induction attrs with
  | nil => intro o o1 _ hP h; cases h; exact hP
  | cons a as ih =>
    intro o o1 hC hP h
    simp only [decodeAttrs] at h
    match hv : decodeAttr a with
    | none => rw [hv] at h; cases h
    | some v =>
      rw [hv] at h
      refine ih _ _ (fun b hb => hC b (by simp [hb])) ?_ h
      by_cases he : a.type = keyControls
      · have hvals : a.vals.length ≠ 1 := hC a (by simp) he
        have h1 : a.type ≠ typeThumb := by rw [he]; decide
        have h2 : a.type ≠ typeGuid := by rw [he]; decide
        have hv2 : decodeAttr a = some (collapseArr (a.vals.map JVal.jStr)) := by
          unfold decodeAttr
          rw [if_neg h1, if_neg h2]
        have hveq : v = collapseArr (a.vals.map JVal.jStr) :=
          Option.some.inj (hv.symm.trans hv2)
        obtain ⟨l, hl⟩ := collapseArr_of_ne_one (a.vals.map JVal.jStr)
          (by simpa using hvals)
        refine ⟨l, ?_⟩
        rw [lookupKey_objInsert, if_pos he, hveq, hl]
      · obtain ⟨l, hl⟩ := hP
        refine ⟨l, ?_⟩
        rw [lookupKey_objInsert, if_neg he]
        exact hl

theorem pushControls_total :
    ∀ (cs : List RawControl) (o : Obj),
      (∃ l, lookupKey keyControls o = some (JVal.jArr l)) →
      ∃ o1, pushControls cs o = some o1
        ∧ (∀ k, lookupKey k o ≠ none → lookupKey k o1 ≠ none) := by
  intro cs
  induction cs with
  | nil => intro o _; exact ⟨o, rfl, fun k h => h⟩
  | cons c cs2 ih =>
    intro o hP
    obtain ⟨l, hl⟩ := hP
    have hP2 : ∃ l2, lookupKey keyControls
        (objInsert keyControls (JVal.jArr (l ++ [JVal.jCtl c.json])) o)
        = some (JVal.jArr l2) := by
      refine ⟨l ++ [JVal.jCtl c.json], ?_⟩
      rw [lookupKey_objInsert, if_pos rfl]
    obtain ⟨o1, ho1, hpres⟩ := ih _ hP2
    refine ⟨o1, ?_, ?_⟩
    · simp only [pushControls, hl]
      exact ho1
    · intro k hk
      refine hpres k ?_
      rw [lookupKey_objInsert]
      by_cases he : keyControls = k
      · simp [he]
      · rw [if_neg he]; exact hk

theorem callbackStep_notSent_true (auth : Bool) (prof : Option Obj)
    (err : Option ErrInfo) (st : CbState) (h : st.notSent = true) :
    callbackStep auth prof err st
      = { notSent := false, destroyCount := st.destroyCount + 1,
          calls := st.calls ++ [(err, if auth then prof else none)] } := by
  simp [callbackStep, h]

theorem callbackStep_notSent_false (auth : Bool) (prof : Option Obj)
    (err : Option ErrInfo) (st : CbState) (h : st.notSent = false) :
    callbackStep auth prof err st = { st with destroyCount := st.destroyCount + 1 } := by
  simp [callbackStep, h]

theorem callbackStep_destroyCount (auth : Bool) (prof : Option Obj)
    (err : Option ErrInfo) (st : CbState) :
    (callbackStep auth prof err st).destroyCount = st.destroyCount + 1 := by
  unfold callbackStep
  by_cases h : st.notSent <;> simp [h]

theorem runEvents_notSent_false (rc auth : Bool) (prof : Option Obj) :
    ∀ (evs : List AttemptEvent) (st : CbState), st.notSent = false →
      (runEvents rc auth prof evs st).calls = st.calls
      ∧ (runEvents rc auth prof evs st).notSent = false := by
  intro evs
  induction evs with
  | nil => intro st h; exact ⟨rfl, h⟩
  | cons ev evs ih =>
    intro st h
    simp only [runEvents]
    by_cases hs : suppressed rc ev
    · rw [if_pos hs]
      exact ih st h
    · rw [if_neg hs]
      rw [callbackStep_notSent_false _ _ _ _ h]
      exact ih _ (by simp [h])

theorem runEvents_calls (rc auth : Bool) (prof : Option Obj) :
    ∀ (evs : List AttemptEvent) (st : CbState), st.notSent = true → st.calls = [] →
      (runEvents rc auth prof evs st).calls
        = ((evs.filter (fun ev => !(suppressed rc ev))).head?.map
            (fun ev => (eventErr ev, if auth then prof else none))).toList := by
  intro evs
  induction evs with
  | nil => intro st _ h2; simp [runEvents, h2]
  | cons ev evs ih =>
    intro st h1 h2
    simp only [runEvents]
    by_cases hs : suppressed rc ev
    · rw [if_pos hs, ih st h1 h2]
      simp [List.filter_cons, hs]
    · rw [if_neg hs]
      have hstep := callbackStep_notSent_true auth prof (eventErr ev) st h1
      have hns : (callbackStep auth prof (eventErr ev) st).notSent = false := by
        rw [hstep]
      have hcalls : (callbackStep auth prof (eventErr ev) st).calls
          = [(eventErr ev, if auth then prof else none)] := by
        rw [hstep]
        simp [h2]
      obtain ⟨hc, _⟩ := runEvents_notSent_false rc auth prof evs _ hns
      rw [hc, hcalls]
      simp [List.filter_cons, hs]

theorem runEvents_destroyCount (rc auth : Bool) (prof : Option Obj) :
    ∀ (evs : List AttemptEvent) (st : CbState),
      (runEvents rc auth prof evs st).destroyCount
        = st.destroyCount + (evs.filter (fun ev => !(suppressed rc ev))).length := by
  intro evs
  induction evs with
  | nil => intro st; simp [runEvents]
  | cons ev evs ih =>
    intro st
    simp only [runEvents]
    by_cases hs : suppressed rc ev
    · rw [if_pos hs, ih]
      simp [List.filter_cons, hs]
    · rw [if_neg hs, ih, callbackStep_destroyCount]
      simp [List.filter_cons, hs]
      omega

/-- Claim C1: for every `validate` call, the outer callback is invoked at most
once, however many completion events (connection errors, the series
completion) fire and in whatever order: the first unsuppressed completion
event wins (and determines the delivered error), and every later completion
attempt leaves the delivered calls unchanged. -/
theorem validate_callback_at_most_once (rc auth : Bool) (prof : Option Obj)
    (evs : List AttemptEvent) :
    (runEvents rc auth prof evs initCbState).calls
      = ((evs.filter (fun ev => !(suppressed rc ev))).head?.map
          (fun ev => (eventErr ev, if auth then prof else none))).toList
    ∧ (runEvents rc auth prof evs initCbState).calls.length ≤ 1 := by
  have h := runEvents_calls rc auth prof evs initCbState rfl rfl
  refine ⟨h, ?_⟩
  rw [h]
  cases (evs.filter (fun ev => !(suppressed rc ev))).head? <;> simp

/-- Claim C2 (the code at the claimed behaviour's input): a `validate` call
with an empty username or password takes the fast path, which throws a
`ReferenceError` (access of the `let`-bound `client` in its temporal dead
zone inside `_callback`) before any callback invocation and before any
client is created — the callback is never invoked with `(no error, null)`
as the claim states. -/
theorem validate_empty_credential_fastpath_throws :
    validateStart (JSV.jsStr []) (JSV.jsStr "secret".toList)
      = { result := StartResult.threwReferenceError, clientCreated := false, calls := [] }
    ∧ validateStart (JSV.jsStr "alice".toList) (JSV.jsStr [])
      = { result := StartResult.threwReferenceError, clientCreated := false, calls := [] } :=
  ⟨rfl, rfl⟩

/-- Claim C3, counterexample: decoding a well-formed entry whose single
attribute is `objectGUID` with an empty (value and) buffer list fails —
`formatGuid(buf[0])` dereferences `undefined` — so `decodeSearchEntry` does
not return a profile for every well-formed entry. -/
theorem decode_empty_objectGUID_buffers_fails :
    decodeSearchEntry
      { dn := "cn=someone".toList,
        attributes := [{ type := "objectGUID".toList, vals := [], buffers := [] }],
        controls := [] } = none := rfl

/-- Claim C3, amended: decoding never fails provided every `objectGUID`
attribute carries at least one buffer and any attribute named `controls`
either collapses to an array (value count other than one) or the entry has
no response controls; the decoded object then contains the `dn` key and a
key for every raw attribute. -/
theorem decode_wellformed_total_amended (e : RawEntry)
    (hG : ∀ a ∈ e.attributes, a.type = typeGuid → a.buffers ≠ [])
    (hC : ∀ a ∈ e.attributes, a.type = keyControls → (e.controls = [] ∨ a.vals.length ≠ 1)) :
    ∃ o, decodeSearchEntry e = some o
      ∧ lookupKey keyDn o ≠ none
      ∧ ∀ a ∈ e.attributes, lookupKey a.type o ≠ none := by
  obtain ⟨o1, ho1⟩ := decodeAttrs_total e.attributes
    [(keyDn, JVal.jStr e.dn), (keyControls, JVal.jArr [])] hG
  have hdn0 : lookupKey keyDn [(keyDn, JVal.jStr e.dn), (keyControls, JVal.jArr [])] ≠ none := by
    rw [show lookupKey keyDn [(keyDn, JVal.jStr e.dn), (keyControls, JVal.jArr [])]
        = some (JVal.jStr e.dn) from rfl]
    simp
  by_cases hcs : e.controls = []
  · refine ⟨o1, ?_, ?_, ?_⟩
    · unfold decodeSearchEntry
      rw [ho1, hcs]
      rfl
    · exact decodeAttrs_preserves_key _ _ _ _ ho1 hdn0
    · exact decodeAttrs_mem_key _ _ _ ho1
  · have hC2 : ∀ a ∈ e.attributes, a.type = keyControls → a.vals.length ≠ 1 := by
      intro a ha hty
      rcases hC a ha hty with h | h
      · exact absurd h hcs
      · exact h
    have hPinit : ∃ l, lookupKey keyControls
        [(keyDn, JVal.jStr e.dn), (keyControls, JVal.jArr [])] = some (JVal.jArr l) :=
      ⟨[], rfl⟩
    obtain ⟨o2, ho2, hpres⟩ := pushControls_total e.controls o1
      (decodeAttrs_controls_inv e.attributes _ o1 hC2 hPinit ho1)
    refine ⟨o2, ?_, ?_, ?_⟩
    · unfold decodeSearchEntry
      rw [ho1]
      exact ho2
    · exact hpres keyDn (decodeAttrs_preserves_key _ _ _ _ ho1 hdn0)
    · intro a ha
      exact hpres _ (decodeAttrs_mem_key _ _ _ ho1 a ha)

/-- Witness for the amended claim C3 at a concrete entry with a multi-valued
ordinary attribute and one response control. -/
theorem decode_wellformed_total_amended_witness :
    (∀ a ∈ [RawAttribute.mk "mail".toList [['a'], ['b']] []],
      a.type = typeGuid → a.buffers ≠ [])
    ∧ ∃ o, decodeSearchEntry
        { dn := "cn=w".toList,
          attributes := [RawAttribute.mk "mail".toList [['a'], ['b']] []],
          controls := [RawControl.mk "ctl".toList] } = some o
      ∧ lookupKey keyDn o ≠ none
      ∧ ∀ a ∈ ({ dn := "cn=w".toList,
                 attributes := [RawAttribute.mk "mail".toList [['a'], ['b']] []],
                 controls := [RawControl.mk "ctl".toList] } : RawEntry).attributes,
          lookupKey a.type o ≠ none :=
  ⟨by decide,
    decode_wellformed_total_amended
      { dn := "cn=w".toList,
        attributes := [RawAttribute.mk "mail".toList [['a'], ['b']] []],
        controls := [RawControl.mk "ctl".toList] }
      (by decide) (by decide)⟩

/-- Claim C4, counterexample: when both a (non-suppressed) connection error
and the series completion fire for the same attempt, `client.destroy()` is
invoked twice, not exactly once — the destroy call in `_callback` sits
outside the `notSent` latch. -/
theorem destroy_called_twice_on_double_completion :
    (runEvents false false none
      [AttemptEvent.connError ⟨"ECONNREFUSED".toList⟩, AttemptEvent.seriesComplete none]
      initCbState).destroyCount = 2
    ∧ (2 : Nat) ≠ 1 :=
  ⟨rfl, by decide⟩

/-- Claim C4, amended: on every `validate` attempt the connection's destroy
is invoked once per unsuppressed completion event — so at least once
whenever a terminal transition occurs, but once per event (more than once)
when both the connection error and the step-sequence completion fire. -/
theorem destroy_once_per_completion_event (rc auth : Bool) (prof : Option Obj)
    (evs : List AttemptEvent) :
    (runEvents rc auth prof evs initCbState).destroyCount
      = (evs.filter (fun ev => !(suppressed rc ev))).length := by
  rw [runEvents_destroyCount]
  simp [initCbState]

/-- Claim C5: when a matching entry was found (decoded to a profile with a
truthy `dn`) and the verification bind fails for any reason, the attempt
completes with `NotAuthenticated`: the callback receives no error and a
null profile — exactly the same delivery as the no-match case. -/
theorem verification_bind_failure_yields_not_authenticated
    (o : Oracle) (e0 : RawEntry) (es : List RawEntry) (prof : Obj) (err : ErrInfo)
    (h1 : o.bindErr = none) (h2 : o.searchCallErr = none)
    (h3 : searchOutcome o.searchEvents [] = some (none, e0 :: es))
    (h4 : decodeSearchEntry e0 = some prof)
    (h5 : profileDnTruthy prof = true)
    (h6 : o.unbindErr = none)
    (h7 : o.userBindErr = some err) :
    (runValidateSeries o).userBindAttempted = true
    ∧ (runValidateSeries o).isAuthenticated = false
    ∧ seriesCalls (runValidateSeries o) = [(none, none)] := by
  simp [runValidateSeries, h1, h2, h3, h4, unbindAndVerify, h6, h5, h7, seriesCalls]

/-- Witness for claim C5 at a concrete oracle: one matching entry, wrong
password (verification bind error). -/
theorem verification_bind_failure_yields_not_authenticated_witness :
    ({ bindErr := none, searchCallErr := none,
       searchEvents := [SearchEvent.entryEv (RawEntry.mk "cn=alice".toList [] []),
                        SearchEvent.endEv],
       unbindErr := none,
       userBindErr := some ⟨"INVALID_CREDENTIALS".toList⟩ } : Oracle).userBindErr
      = some ⟨"INVALID_CREDENTIALS".toList⟩
    ∧ ((runValidateSeries
        { bindErr := none, searchCallErr := none,
          searchEvents := [SearchEvent.entryEv (RawEntry.mk "cn=alice".toList [] []),
                           SearchEvent.endEv],
          unbindErr := none,
          userBindErr := some ⟨"INVALID_CREDENTIALS".toList⟩ }).userBindAttempted = true
      ∧ (runValidateSeries
          { bindErr := none, searchCallErr := none,
            searchEvents := [SearchEvent.entryEv (RawEntry.mk "cn=alice".toList [] []),
                             SearchEvent.endEv],
            unbindErr := none,
            userBindErr := some ⟨"INVALID_CREDENTIALS".toList⟩ }).isAuthenticated = false
      ∧ seriesCalls (runValidateSeries
          { bindErr := none, searchCallErr := none,
            searchEvents := [SearchEvent.entryEv (RawEntry.mk "cn=alice".toList [] []),
                             SearchEvent.endEv],
            unbindErr := none,
            userBindErr := some ⟨"INVALID_CREDENTIALS".toList⟩ }) = [(none, none)]) :=
  ⟨rfl,
    verification_bind_failure_yields_not_authenticated
      { bindErr := none, searchCallErr := none,
        searchEvents := [SearchEvent.entryEv (RawEntry.mk "cn=alice".toList [] []),
                         SearchEvent.endEv],
        unbindErr := none,
        userBindErr := some ⟨"INVALID_CREDENTIALS".toList⟩ }
      (RawEntry.mk "cn=alice".toList [] []) []
      [(keyDn, JVal.jStr "cn=alice".toList), (keyControls, JVal.jArr [])]
      ⟨"INVALID_CREDENTIALS".toList⟩
      rfl rfl rfl rfl rfl rfl rfl⟩

/-- Claim C6, counterexample: with zero search entries but a failing unbind,
the attempt does not complete with `NotAuthenticated` — the unbind error is
passed to the series callback (`return cb(err)` in the `unbind` step) and
surfaces as the delivered error. -/
theorem zero_entries_unbind_error_surfaces_error :
    seriesCalls (runValidateSeries
      { bindErr := none, searchCallErr := none, searchEvents := [SearchEvent.endEv],
        unbindErr := some ⟨"UNBIND_ERR".toList⟩, userBindErr := none })
      = [(some ⟨"UNBIND_ERR".toList⟩, none)]
    ∧ (some (⟨"UNBIND_ERR".toList⟩ : ErrInfo) : Option ErrInfo) ≠ none :=
  ⟨rfl, by decide⟩

/-- Claim C6, amended: an attempt whose search stream ends with zero entries
is not treated as an error at the search step and never attempts the
verification bind; provided the subsequent unbind succeeds, it completes
with `NotAuthenticated` (no error, null profile). -/
theorem zero_entries_completes_not_authenticated_of_unbind_ok
    (o : Oracle)
    (h1 : o.bindErr = none) (h2 : o.searchCallErr = none)
    (h3 : searchOutcome o.searchEvents [] = some (none, []))
    (h6 : o.unbindErr = none) :
    (runValidateSeries o).userBindAttempted = false
    ∧ (runValidateSeries o).userProfile = none
    ∧ seriesCalls (runValidateSeries o) = [(none, none)] := by
  simp [runValidateSeries, h1, h2, h3, unbindAndVerify, h6, seriesCalls]

/-- Witness for the amended claim C6 at a concrete oracle with an empty
result stream. -/
theorem zero_entries_completes_not_authenticated_of_unbind_ok_witness :
    searchOutcome ([SearchEvent.endEv] : List SearchEvent) [] = some (none, [])
    ∧ ((runValidateSeries
        { bindErr := none, searchCallErr := none, searchEvents := [SearchEvent.endEv],
          unbindErr := none, userBindErr := none }).userBindAttempted = false
      ∧ (runValidateSeries
          { bindErr := none, searchCallErr := none, searchEvents := [SearchEvent.endEv],
            unbindErr := none, userBindErr := none }).userProfile = none
      ∧ seriesCalls (runValidateSeries
          { bindErr := none, searchCallErr := none, searchEvents := [SearchEvent.endEv],
            unbindErr := none, userBindErr := none }) = [(none, none)]) :=
  ⟨rfl,
    zero_entries_completes_not_authenticated_of_unbind_ok
      { bindErr := none, searchCallErr := none, searchEvents := [SearchEvent.endEv],
        unbindErr := none, userBindErr := none }
      rfl rfl rfl rfl⟩

/-- Claim C7: for every 16-byte input, `formatGuid` (a pure function, hence
deterministic) renders each byte as exactly two zero-padded lowercase hex
digits and joins them reversing the first 4 bytes, the next 2 and the next
2 while keeping the last 8 in order; the result is a 36-character string of
hex digits and hyphens, and the fixture bytes `01..10` map to
`04030201-0605-0807-090a-0b0c0d0e0f10`. -/
theorem formatGuid_correct :
    (∀ d0 d1 d2 d3 d4 d5 d6 d7 d8 d9 d10 d11 d12 d13 d14 d15 : Nat,
      d0 < 256 → d1 < 256 → d2 < 256 → d3 < 256 → d4 < 256 → d5 < 256 →
      d6 < 256 → d7 < 256 → d8 < 256 → d9 < 256 → d10 < 256 → d11 < 256 →
      d12 < 256 → d13 < 256 → d14 < 256 → d15 < 256 →
      formatGuid [d0, d1, d2, d3, d4, d5, d6, d7, d8, d9, d10, d11, d12, d13, d14, d15]
        = byteHex d3 ++ (byteHex d2 ++ (byteHex d1 ++ (byteHex d0 ++ '-' ::
          (byteHex d5 ++ (byteHex d4 ++ '-' :: (byteHex d7 ++ (byteHex d6 ++ '-' ::
          (byteHex d8 ++ (byteHex d9 ++ '-' ::
          (byteHex d10 ++ (byteHex d11 ++ (byteHex d12 ++ (byteHex d13 ++
          (byteHex d14 ++ byteHex d15))))))))))))))
      ∧ (formatGuid [d0, d1, d2, d3, d4, d5, d6, d7, d8, d9, d10, d11, d12, d13, d14, d15]).length = 36
      ∧ (∀ c ∈ formatGuid [d0, d1, d2, d3, d4, d5, d6, d7, d8, d9, d10, d11, d12, d13, d14, d15],
          c = '-' ∨ c ∈ hexChars))
    ∧ formatGuid [1, 2, 3, 4, 5, 6, 7, 8, 9, 10, 11, 12, 13, 14, 15, 16]
        = "04030201-0605-0807-090a-0b0c0d0e0f10".toList := by
  constructor
  · intro d0 d1 d2 d3 d4 d5 d6 d7 d8 d9 d10 d11 d12 d13 d14 d15
      h0 h1 h2 h3 h4 h5 h6 h7 h8 h9 h10 h11 h12 h13 h14 h15
    refine ⟨formatGuid_explicit d0 d1 d2 d3 d4 d5 d6 d7 d8 d9 d10 d11 d12 d13 d14 d15,
      ?_, ?_⟩
    · rw [formatGuid_explicit]
      simp [List.length_append, byteHex_len2 h0, byteHex_len2 h1, byteHex_len2 h2,
        byteHex_len2 h3, byteHex_len2 h4, byteHex_len2 h5, byteHex_len2 h6,
        byteHex_len2 h7, byteHex_len2 h8, byteHex_len2 h9, byteHex_len2 h10,
        byteHex_len2 h11, byteHex_len2 h12, byteHex_len2 h13, byteHex_len2 h14,
        byteHex_len2 h15]
    · rw [formatGuid_explicit]
      intro c hc
      simp only [List.mem_append, List.mem_cons] at hc
      rcases hc with h|h|h|h|h|h|h|h|h|h|h|h|h|h|h|h|h|h|h|h
      all_goals first
        | (exact Or.inl h)
        | (exact Or.inr (byteHex_subset _ _ h))
  · rw [formatGuid_explicit]
    simp [byteHex, toHexString, hexDigit, hexChars]

/-- Witness for claim C7: the general part applied at a concrete 16-byte
input with bytes from both padding regimes. -/
theorem formatGuid_correct_witness :
    (0 : Nat) < 256 ∧ (255 : Nat) < 256
    ∧ (formatGuid [0, 255, 1, 2, 3, 4, 5, 6, 7, 8, 9, 10, 11, 12, 13, 14]).length = 36 :=
  ⟨by decide, by decide,
    (formatGuid_correct.1 0 255 1 2 3 4 5 6 7 8 9 10 11 12 13 14
      (by decide) (by decide) (by decide) (by decide) (by decide) (by decide)
      (by decide) (by decide) (by decide) (by decide) (by decide) (by decide)
      (by decide) (by decide) (by decide) (by decide)).2.1⟩

/-- Claim C8: for attributes other than the two special-cased types, the
decoder applies the collapsing rule — an empty value list decodes to `[]`,
a single value to the bare scalar, and two or more values to the array of
those values unmodified. -/
theorem decodeAttr_collapsing_rule (a : RawAttribute)
    (h1 : a.type ≠ typeThumb) (h2 : a.type ≠ typeGuid) :
    decodeAttr a = some (collapseArr (a.vals.map JVal.jStr))
    ∧ (a.vals = [] → decodeAttr a = some (JVal.jArr []))
    ∧ (∀ v, a.vals = [v] → decodeAttr a = some (JVal.jStr v))
    ∧ (2 ≤ a.vals.length → decodeAttr a = some (JVal.jArr (a.vals.map JVal.jStr))) := by
  have hbase : decodeAttr a = some (collapseArr (a.vals.map JVal.jStr)) := by
    unfold decodeAttr
    rw [if_neg h1, if_neg h2]
  refine ⟨hbase, ?_, ?_, ?_⟩
  · intro hv
    rw [hbase, hv]
    rfl
  · intro v hv
    rw [hbase, hv]
    rfl
  · intro hv
    match hval : a.vals with
    | [] => rw [hval] at hv; simp at hv
    | [v] => rw [hval] at hv; simp at hv
    | v1 :: v2 :: rest =>
      rw [hval] at hbase
      rw [hbase]
      rfl

/-- Witness for claim C8 at a single-valued ordinary attribute: the scalar
is emitted bare. -/
theorem decodeAttr_collapsing_rule_witness :
    ("mail".toList ≠ typeThumb) ∧ ("mail".toList ≠ typeGuid)
    ∧ decodeAttr { type := "mail".toList, vals := [['a']], buffers := [] }
        = some (JVal.jStr ['a']) :=
  ⟨by decide, by decide,
    (decodeAttr_collapsing_rule { type := "mail".toList, vals := [['a']], buffers := [] }
      (by decide) (by decide)).2.2.1 ['a'] rfl⟩

/-- Claim C9, counterexample: the username is not substituted literally —
JavaScript `String.replace` processes `$`-patterns in the replacement, so
for the username `$&` each placeholder match is replaced by the matched
text `{0}` itself and the filter equals the raw template instead of the
template with `$&` substituted. -/
theorem searchFilter_dollar_username_not_literal :
    searchFilter DEFAULT_SEARCH_QUERY "$&".toList = DEFAULT_SEARCH_QUERY
    ∧ searchFilter DEFAULT_SEARCH_QUERY "$&".toList
        ≠ "(&(objectclass=user)(|(sAMAccountName=".toList ++ ("$&".toList
          ++ (")(UserPrincipalName=".toList ++ ("$&".toList ++ ")))".toList))) :=
  ⟨by decide, by decide⟩

/-- Claim C9, amended: for every username containing no `$`, the filter
issued to the search equals the configured template with every placeholder
`{0}` replaced by the literal username; on the default template this yields
the disjunction over the two account-name attributes. -/
theorem searchFilter_literal_substitution (q u : List Char)
    (h : ∀ c ∈ u, c ≠ '$') :
    searchFilter q u = replaceLit placeholder u q
    ∧ searchFilter DEFAULT_SEARCH_QUERY u
        = "(&(objectclass=user)(|(sAMAccountName=".toList ++ (u
          ++ (")(UserPrincipalName=".toList ++ (u ++ ")))".toList))) := by
  have hlit : ∀ (s : List Char), searchFilter s u = replaceLit placeholder u s :=
    fun s => jsReplace_eq_replaceLit placeholder u s h
  refine ⟨hlit q, ?_⟩
  rw [hlit DEFAULT_SEARCH_QUERY]
  have hsplit : DEFAULT_SEARCH_QUERY
      = "(&(objectclass=user)(|(sAMAccountName=".toList
        ++ (placeholder ++ (")(UserPrincipalName=".toList ++ (placeholder ++ ")))".toList))) := by
    decide
  unfold replaceLit
  rw [hsplit]
  rw [show placeholder = braceL :: ['0', braceR] from rfl]
  rw [scanRepl_skip_chunk _ _ _ _ _ _ (by decide)]
  rw [scanRepl_hit_append _ _ _ _ (by decide)]
  rw [scanRepl_skip_chunk _ _ _ _ _ _ (by decide)]
  rw [scanRepl_hit_append _ _ _ _ (by decide)]
  rw [scanRepl_chunk_all _ _ _ _ _ (by decide)]

/-- Witness for the amended claim C9 with the username `alice`. -/
theorem searchFilter_literal_substitution_witness :
    (∀ c ∈ "alice".toList, c ≠ '$')
    ∧ searchFilter DEFAULT_SEARCH_QUERY "alice".toList
        = "(&(objectclass=user)(|(sAMAccountName=".toList ++ ("alice".toList
          ++ (")(UserPrincipalName=".toList ++ ("alice".toList ++ ")))".toList))) :=
  ⟨by decide,
    (searchFilter_literal_substitution DEFAULT_SEARCH_QUERY "alice".toList (by decide)).2⟩

/-- Claim C10: the fast-path guard rejects every non-string username or
password (numbers, booleans, `undefined`, `null`, objects, arrays), so no
LDAP client is ever created, no directory operation is issued, and no
outcome — in particular no `Authenticated` outcome — is ever delivered for
such a call (the call throws instead). -/
theorem validate_rejects_nonstring_credentials (u p : JSV)
    (h : isJsString u = false ∨ isJsString p = false) :
    (validateStart u p).clientCreated = false
    ∧ (validateStart u p).calls = []
    ∧ (validateStart u p).result = StartResult.threwReferenceError := by
  have hg : guardRejects u = true ∨ guardRejects p = true := by
    rcases h with h | h
    · left
      cases u <;> first | rfl | simp [isJsString] at h
    · right
      cases p <;> first | rfl | simp [isJsString] at h
  by_cases hu : guardRejects u = true
  · simp [validateStart, hu]
  · have hp : guardRejects p = true := by
      rcases hg with h | h
      · exact absurd h hu
      · exact h
    simp [validateStart, hu, hp]

/-- Witness for claim C10 with a numeric username. -/
theorem validate_rejects_nonstring_credentials_witness :
    isJsString (JSV.jsNum 42) = false
    ∧ ((validateStart (JSV.jsNum 42) (JSV.jsStr "pw".toList)).clientCreated = false
      ∧ (validateStart (JSV.jsNum 42) (JSV.jsStr "pw".toList)).calls = []
      ∧ (validateStart (JSV.jsNum 42) (JSV.jsStr "pw".toList)).result
          = StartResult.threwReferenceError) :=
  ⟨rfl,
    validate_rejects_nonstring_credentials (JSV.jsNum 42) (JSV.jsStr "pw".toList)
      (Or.inl rfl)⟩
